import Mathlib

/-!
Verification development for a 15x15 connect-five (Gomoku) game engine.

The definitions below are a shallow embedding of the game's core logic:
board representation, move placement, win detection, undo, the heuristic
computer-move selector, and snapshot persistence.  Mutable class fields
become an explicit GameState record; the canvas / DOM side effects carry
no game logic and are omitted.  Coordinates are modelled as integers
(the UI can produce out-of-range coordinates such as -1, which the engine
rejects by bounds checks).
-/

namespace Gomoku

/-- Cell / player values: empty, black (first mover), white. -/
inductive Player where
  | NONE
  | BLACK
  | WHITE
deriving DecidableEq, Repr

/-- Game mode: two humans, or human versus computer (computer plays white). -/
inductive GameMode where
  | PVP
  | PVE
deriving DecidableEq, Repr

/-- Board dimension constant from the source (BOARD_SIZE = 15). -/
def BOARD_SIZE : Int := 15

/-- A board assigns a cell value to each of the 15 x 15 positions. -/
abbrev Board := Fin 15 → Fin 15 → Player

/-- Coordinates lie on the board: 0 <= r < 15 and 0 <= c < 15. -/
def inBounds (r c : Int) : Prop :=
  0 ≤ r ∧ r < 15 ∧ 0 ≤ c ∧ c < 15

instance (r c : Int) : Decidable (inBounds r c) := by
  unfold inBounds; infer_instance

/-- Read a cell; out-of-range reads yield NONE (the source only reads after
a bounds check, so the out-of-range value is never observed). -/
def getCell (b : Board) (r c : Int) : Player :=
  if h : inBounds r c then
    b ⟨r.toNat, by unfold inBounds at h; omega⟩
      ⟨c.toNat, by unfold inBounds at h; omega⟩
  else Player.NONE

/-- Write a cell; writes outside the grid change nothing (the source only
writes at coordinates previously validated to be in bounds). -/
def setCell (b : Board) (r c : Int) (v : Player) : Board :=
  fun i j => if (i : Int) = r ∧ (j : Int) = c then v else b i j

/-- A move record: row, col, the side that played, the timestamp supplied at
submission time, and the running move number. -/
structure Move where
  row : Int
  col : Int
  player : Player
  timestamp : Int
  moveNumber : Int
deriving DecidableEq, Repr

/-- The mutable fields of the game class that carry game logic. The move
history list keeps the most recent move at the head (array push = cons). -/
structure GameState where
  board : Board
  currentPlayer : Player
  gameOver : Bool
  moveHistory : List Move
  moveCount : Int
  gameMode : GameMode

/-- The empty board. -/
def initialBoard : Board := fun _ _ => Player.NONE

/-- State built by the constructor before any load: empty board, black to
move, not terminal, empty ledger, two-player mode. -/
def initialState : GameState :=
  { board := initialBoard
    currentPlayer := Player.BLACK
    gameOver := false
    moveHistory := []
    moveCount := 0
    gameMode := GameMode.PVP }

/-! ## Win detector -/

/-- Fuel-indexed transcription of the countDirection while loop: walk from
(r, c) in steps of (dx, dy), counting contiguous cells equal to p, stopping
at the board edge or a mismatch.  Fuel 15 never truncates: a ray re-entering
the call starts adjacent to the played cell and can meet at most 15 cells. -/
def countDirectionAux (b : Board) (p : Player) (dx dy : Int) :
    Nat → Int → Int → Nat
  | 0, _, _ => 0
  | fuel + 1, r, c =>
    if inBounds r c ∧ getCell b r c = p then
      countDirectionAux b p dx dy fuel (r + dx) (c + dy) + 1
    else 0

/-- countDirection from the source: number of contiguous cells equal to p
strictly beyond (row, col) in direction (dx, dy). -/
def countDirection (b : Board) (row col dx dy : Int) (p : Player) : Nat :=
  countDirectionAux b p dx dy 15 (row + dx) (col + dy)

/-- The four axis directions scanned by the engine: horizontal, vertical,
diagonal, anti-diagonal. -/
def directions : List (Int × Int) := [(0, 1), (1, 0), (1, 1), (1, -1)]

/-- checkWin from the source: the just-played cell wins if on some axis the
cell itself plus the two opposite rays total at least five. -/
def checkWin (b : Board) (row col : Int) : Bool :=
  let player := getCell b row col
  directions.any fun d =>
    5 ≤ 1 + countDirection b row col d.1 d.2 player
        + countDirection b row col (-d.1) (-d.2) player

/-! ## Position evaluation (AI scoring) -/

/-- evaluatePosition from the source: accumulate, per axis, weights for the
lengths of own and opposing runs adjacent to the candidate cell, then add a
centrality bonus of (14 - |row - 7| - |col - 7|) * 10. -/
def evaluatePosition (b : Board) (row col : Int) (player : Player) : Int :=
  let opponent := if player = Player.BLACK then Player.WHITE else Player.BLACK
  let score := directions.foldl (fun score d =>
    let myCount := countDirection b row col d.1 d.2 player
        + countDirection b row col (-d.1) (-d.2) player
    let opponentCount := countDirection b row col d.1 d.2 opponent
        + countDirection b row col (-d.1) (-d.2) opponent
    let score1 :=
      if 4 ≤ myCount then score + 100000
      else if myCount = 3 then score + 10000
      else if myCount = 2 then score + 1000
      else if myCount = 1 then score + 100
      else score
    if 4 ≤ opponentCount then score1 + 50000
    else if opponentCount = 3 then score1 + 5000
    else if opponentCount = 2 then score1 + 500
    else score1) 0
  score + (14 - (|row - 7| + |col - 7|)) * 10

/-! ## Board scans -/

/-- All board coordinates in row-major order, matching the nested
for row / for col loops of the source. -/
def allCells : List (Int × Int) :=
  (List.range 15).flatMap fun r =>
    (List.range 15).map fun c => ((r : Int), (c : Int))

/-- isBoardFull from the source: no empty cell remains. -/
def isBoardFull (b : Board) : Bool :=
  allCells.all fun q => !(decide (getCell b q.1 q.2 = Player.NONE))

/-! ## AI move selection.
The source temporarily mutates the board during the win / block scans and
restores the mutated cell before returning or continuing, so the embedding
threads the board through the scan and returns it alongside the result. -/

/-- One win-search tier of getAIMove: scan cells in order; at each empty
cell place a hypothetical piece of the given side, test checkWin on the
mutated board, then restore the cell; return the first winning cell. -/
def tryWinScan (b : Board) (side : Player) :
    List (Int × Int) → Option (Int × Int) × Board
  | [] => (none, b)
  | q :: rest =>
    if getCell b q.1 q.2 = Player.NONE then
      if checkWin (setCell b q.1 q.2 side) q.1 q.2 then
        (some q, setCell (setCell b q.1 q.2 side) q.1 q.2 Player.NONE)
      else tryWinScan (setCell (setCell b q.1 q.2 side) q.1 q.2 Player.NONE) side rest
    else tryWinScan b side rest

/-- One step of the strategy-3 loop of getAIMove: skip occupied cells, and
keep a candidate only when its score strictly exceeds the best so far. -/
def bestStep (b : Board) (acc : Int × Option (Int × Int)) (q : Int × Int) :
    Int × Option (Int × Int) :=
  if getCell b q.1 q.2 = Player.NONE then
    if acc.1 < evaluatePosition b q.1 q.2 Player.WHITE then
      (evaluatePosition b q.1 q.2 Player.WHITE, some q)
    else acc
  else acc

/-- getAIMove from the source: tier 1 finds an immediate win for white,
tier 2 finds an immediate win for black to block, tier 3 picks the
highest-scoring empty cell (best score starts at -1, strict improvement,
so the first best cell in scan order is kept).  The second component is
the board as left behind by the scans. -/
def getAIMove (b : Board) : Option (Int × Int) × Board :=
  match tryWinScan b Player.WHITE allCells with
  | (some q, b1) => (some q, b1)
  | (none, b1) =>
    match tryWinScan b1 Player.BLACK allCells with
    | (some q, b2) => (some q, b2)
    | (none, b2) => ((allCells.foldl (bestStep b2) (-1, none)).2, b2)

/-! ## Game state machine -/

/-- placePiece from the source: write the cell, bump the move counter,
push the ledger record, then either end the game (win or full-board draw)
or flip the side to move.  Rendering and persistence side effects carry no
state-machine logic and are modelled separately. -/
def placePiece (st : GameState) (row col ts : Int) : GameState :=
  let b1 := setCell st.board row col st.currentPlayer
  let mc := st.moveCount + 1
  let mv : Move :=
    { row := row, col := col, player := st.currentPlayer
      timestamp := ts, moveNumber := mc }
  let st1 :=
    { st with board := b1, moveCount := mc, moveHistory := mv :: st.moveHistory }
  if checkWin b1 row col then { st1 with gameOver := true }
  else if isBoardFull b1 then { st1 with gameOver := true }
  else
    { st1 with currentPlayer :=
        if st.currentPlayer = Player.BLACK then Player.WHITE else Player.BLACK }

/-- handleClick from the source: reject the click when the game is over,
when the computer (white, in PVE mode) is to move, when the coordinates are
off the board, or when the cell is occupied; otherwise place the piece. -/
def handleClick (st : GameState) (row col ts : Int) : GameState :=
  if st.gameOver = true then st
  else if st.gameMode = GameMode.PVE ∧ st.currentPlayer = Player.WHITE then st
  else if ¬inBounds row col then st
  else if getCell st.board row col ≠ Player.NONE then st
  else placePiece st row col ts

/-- One iteration of the undo loop: pop the most recent ledger entry, clear
its cell, decrement the move counter; no change when the ledger is empty. -/
def popOnce (st : GameState) : GameState :=
  match st.moveHistory with
  | [] => st
  | m :: rest =>
    { st with
        moveHistory := rest
        board := setCell st.board m.row m.col Player.NONE
        moveCount := st.moveCount - 1 }

/-- The undo loop, run a fixed number of times. -/
def popLoop : Nat → GameState → GameState
  | 0, st => st
  | n + 1, st => popLoop n (popOnce st)

/-- undo from the source: a no-op when the game is over or the ledger is
empty; otherwise pop one move (two in PVE mode when at least two exist) and
restore the side to move from the new ledger tail, or black if empty. -/
def undo (st : GameState) : GameState :=
  if st.gameOver = true ∨ st.moveHistory = [] then st
  else
    let steps :=
      if st.gameMode = GameMode.PVE ∧ 2 ≤ st.moveHistory.length then 2 else 1
    let st1 := popLoop steps st
    { st1 with currentPlayer :=
        match st1.moveHistory with
        | [] => Player.BLACK
        | m :: _ =>
          if m.player = Player.BLACK then Player.WHITE else Player.BLACK }

/-! ## Persistence.
Local storage holds at most one value under a fixed key.  The load path
runs the deserializer inside try/catch and then assigns the parsed
object's properties to the engine fields one by one, so the embedding
distinguishes how far the real code gets.  A stored value either throws
before any field is assigned (text the parser rejects, or a parse result
such as a bare null whose very first property read throws), or parses to
a property bag whose five relevant properties are each either a
well-typed value or undefined (absent, or a bare primitive root, whose
property reads all give undefined).  Properties of other mistyped shapes
are outside the model. -/

/-- The five properties the load path reads off a parsed value, each
possibly undefined. -/
structure ParsedSnapshot where
  board : Option Board
  currentPlayer : Option Player
  gameOver : Option Bool
  moveHistory : Option (List Move)
  gameMode : Option GameMode

/-- A raw stored value: data on which loading throws before any
assignment, or a parse result carrying the five properties the load path
reads. -/
inductive StoredValue where
  | unparseable
  | parsed (g : ParsedSnapshot)

/-- Engine fields as the scripting runtime sees them after a load: each
class field may have been assigned undefined from a bad snapshot. -/
structure JsGameState where
  board : Option Board
  currentPlayer : Option Player
  gameOver : Option Bool
  moveHistory : Option (List Move)
  moveCount : Option Int
  gameMode : Option GameMode

/-- A well-formed engine state viewed as runtime field contents: every
field defined. -/
def toJs (st : GameState) : JsGameState :=
  { board := some st.board, currentPlayer := some st.currentPlayer
    gameOver := some st.gameOver, moveHistory := some st.moveHistory
    moveCount := some st.moveCount, gameMode := some st.gameMode }

/-- saveGame from the source: skipped entirely once the game is over,
otherwise overwrite the stored snapshot with a serialization of the
current fields; parsing that serialization back yields exactly those
fields (these numeric, enum and record fields round-trip losslessly). -/
def saveGame (st : GameState) (stor : Option StoredValue) : Option StoredValue :=
  if st.gameOver = true then stor
  else some (.parsed
    { board := some st.board, currentPlayer := some st.currentPlayer
      gameOver := some st.gameOver, moveHistory := some st.moveHistory
      gameMode := some st.gameMode })

/-- loadGame from the source: absent storage returns at once; a value that
throws before the first assignment is caught, leaves the engine untouched
and removes the snapshot.  A parsed bag is assigned field by field -
board, side, terminal flag and history first, then the move counter is
read from the history's length.  When the parsed history is undefined
that read throws: the four earlier assignments stick (possibly
undefined), the move counter and mode keep their previous values, and the
catch handler removes the snapshot.  When the history is usable nothing
throws, every field is assigned (possibly undefined) and the snapshot
stays in storage. -/
def loadGame (st : GameState) (stor : Option StoredValue) :
    JsGameState × Option StoredValue :=
  match stor with
  | none => (toJs st, none)
  | some .unparseable => (toJs st, none)
  | some (.parsed g) =>
    match g.moveHistory with
    | none =>
      ({ board := g.board, currentPlayer := g.currentPlayer
         gameOver := g.gameOver, moveHistory := none
         moveCount := some st.moveCount, gameMode := some st.gameMode }, none)
    | some hist =>
      ({ board := g.board, currentPlayer := g.currentPlayer
         gameOver := g.gameOver, moveHistory := some hist
         moveCount := some (hist.length : Int), gameMode := g.gameMode },
       some (.parsed g))

/-! ## Reachability -/

/-- Preconditions checked on every path that reaches placePiece (both the
click handler and the computer's move): game in progress, coordinates on
the board, target cell empty. -/
def validPlace (st : GameState) (row col : Int) : Prop :=
  st.gameOver = false ∧ inBounds row col ∧ getCell st.board row col = Player.NONE

/-- States reachable from the initial state by successful move submissions
(human or computer) and undos. -/
inductive Reachable : GameState → Prop
  | init : Reachable initialState
  | move {st : GameState} (row col ts : Int) :
      Reachable st → validPlace st row col → Reachable (placePiece st row col ts)
  | undoStep {st : GameState} : Reachable st → Reachable (undo st)

/-! ## Specification-side definitions.
These are written from the specification's wording, to be compared with
the source-derived functions above. -/

/-- The k cells strictly beyond (row, col) in direction (dx, dy) are all on
the board and hold s. -/
def segOK (b : Board) (row col dx dy : Int) (s : Player) (k : Nat) : Prop :=
  ∀ i : Nat, i < k →
    inBounds (row + (i + 1) * dx) (col + (i + 1) * dy) ∧
    getCell b (row + (i + 1) * dx) (col + (i + 1) * dy) = s

instance (b : Board) (row col dx dy : Int) (s : Player) (k : Nat) :
    Decidable (segOK b row col dx dy s k) := by
  unfold segOK; infer_instance

/-- Specification predicate: some axis-aligned run of at least five
contiguous cells of side s passes through (row, col) along direction
(dx, dy) - a cells on one side, bb cells on the other, plus the cell
itself, truncated at the board edge by the in-bounds requirement. -/
def hasRun (b : Board) (row col dx dy : Int) (s : Player) : Prop :=
  ∃ a bb : Nat, 5 ≤ a + bb + 1 ∧
    segOK b row col (-dx) (-dy) s a ∧ segOK b row col dx dy s bb

/-- Specification run length: the greatest number of contiguous cells of
side s extending from (row, col) in direction (dx, dy), not counting the
cell itself.  A run from an on-board cell spans at most 15 cells, so the
search bound 15 is not restrictive. -/
def runLen (b : Board) (row col dx dy : Int) (s : Player) : Nat :=
  Nat.findGreatest (fun n => segOK b row col dx dy s n) 15

/-- Per-axis weight for the mover's adjacent run length, from the
specification's scoring table. -/
def axisScoreMine (n : Nat) : Int :=
  if 4 ≤ n then 100000
  else if n = 3 then 10000
  else if n = 2 then 1000
  else if n = 1 then 100
  else 0

/-- Per-axis weight for the opponent's adjacent run length, from the
specification's scoring table. -/
def axisScoreOpp (n : Nat) : Int :=
  if 4 ≤ n then 50000
  else if n = 3 then 5000
  else if n = 2 then 500
  else 0

/-- The side opposing s (for s a real side). -/
def oppOf (s : Player) : Player :=
  if s = Player.BLACK then Player.WHITE else Player.BLACK

/-- Specification score contribution of one axis: the mover's weight for
the two-sided adjacent run of s, plus the opponent's weight for the
two-sided adjacent run of the other side. -/
def specAxis (b : Board) (row col dx dy : Int) (s : Player) : Int :=
  axisScoreMine (runLen b row col dx dy s + runLen b row col (-dx) (-dy) s) +
  axisScoreOpp (runLen b row col dx dy (oppOf s) +
    runLen b row col (-dx) (-dy) (oppOf s))

/-- Specification evaluation score: the four axis contributions plus the
centrality bonus (14 - |row - 7| - |col - 7|) * 10. -/
def evalSpec (b : Board) (row col : Int) (s : Player) : Int :=
  specAxis b row col 0 1 s + specAxis b row col 1 0 s +
  specAxis b row col 1 1 s + specAxis b row col 1 (-1) s +
  (14 - |row - 7| - |col - 7|) * 10

/-- A cell is a winning placement for the given side: it is empty, and
hypothetically placing the side there makes checkWin report a win. -/
def winningCell (b : Board) (side : Player) (q : Int × Int) : Bool :=
  decide (getCell b q.1 q.2 = Player.NONE) && checkWin (setCell b q.1 q.2 side) q.1 q.2

/-- The empty cells of the board in row-major order. -/
def emptyCells (b : Board) : List (Int × Int) :=
  allCells.filter fun q => decide (getCell b q.1 q.2 = Player.NONE)

/-- The greatest evaluation score over the empty cells (or -1 when none). -/
def bestSpecScore (b : Board) : Int :=
  ((emptyCells b).map fun q => evaluatePosition b q.1 q.2 Player.WHITE).foldl max (-1)

/-- Specification move selector: first row-major winning cell for white;
otherwise first row-major winning cell for black (the block); otherwise the
first row-major empty cell attaining the greatest evaluation score. -/
def selectMoveSpec (b : Board) : Option (Int × Int) :=
  match allCells.find? (winningCell b Player.WHITE) with
  | some q => some q
  | none =>
    match allCells.find? (winningCell b Player.BLACK) with
    | some q => some q
    | none =>
      (emptyCells b).find? fun q =>
        decide (evaluatePosition b q.1 q.2 Player.WHITE = bestSpecScore b)

/-- Number of non-empty cells of a board. -/
def nonEmptyCount (b : Board) : Nat :=
  (Finset.univ.filter fun q : Fin 15 × Fin 15 => b q.1 q.2 ≠ Player.NONE).card

/-- The inductive invariant tying the ledger to the board: the ledger length
counts the non-empty cells, every ledger entry is an on-board, non-empty
record matching its cell, ledger entries occupy pairwise distinct cells,
and the side to move is a real side. -/
def LedgerInv (st : GameState) : Prop :=
  st.moveHistory.length = nonEmptyCount st.board ∧
  (∀ m ∈ st.moveHistory,
    inBounds m.row m.col ∧ getCell st.board m.row m.col = m.player ∧
    m.player ≠ Player.NONE) ∧
  st.moveHistory.Pairwise (fun m1 m2 => (m1.row, m1.col) ≠ (m2.row, m2.col)) ∧
  st.currentPlayer ≠ Player.NONE

/-! ## Lemmas about the directional count -/

lemma countAux_le (b : Board) (p : Player) (dx dy : Int) :
    ∀ (fuel : Nat) (r c : Int), countDirectionAux b p dx dy fuel r c ≤ fuel := by
  intro fuel
  induction fuel with
  | zero => intro r c; simp [countDirectionAux]
  | succ n ih =>
    intro r c
    rw [countDirectionAux]
    split
    · have := ih (r + dx) (c + dy); omega
    · omega

lemma countAux_all (b : Board) (p : Player) (dx dy : Int) :
    ∀ (fuel : Nat) (r c : Int) (i : Nat),
      i < countDirectionAux b p dx dy fuel r c →
      inBounds (r + i * dx) (c + i * dy) ∧ getCell b (r + i * dx) (c + i * dy) = p := by
  intro fuel
  induction fuel with
  | zero => intro r c i h; simp [countDirectionAux] at h
  | succ n ih =>
    intro r c i h
    rw [countDirectionAux] at h
    split at h
    · rename_i hcond
      cases i with
      | zero => simpa using hcond
      | succ j =>
        have hj : j < countDirectionAux b p dx dy n (r + dx) (c + dy) := by omega
        have hstep := ih (r + dx) (c + dy) j hj
        have e1 : r + dx + (j : Int) * dx = r + ((j : Nat) + 1 : Nat) * dx := by
          push_cast; ring
        have e2 : c + dy + (j : Int) * dy = c + ((j : Nat) + 1 : Nat) * dy := by
          push_cast; ring
        rw [e1, e2] at hstep
        exact hstep
    · omega

lemma countAux_ge (b : Board) (p : Player) (dx dy : Int) :
    ∀ (fuel : Nat) (r c : Int) (k : Nat),
      (∀ i : Nat, i < k →
        inBounds (r + i * dx) (c + i * dy) ∧ getCell b (r + i * dx) (c + i * dy) = p) →
      min k fuel ≤ countDirectionAux b p dx dy fuel r c := by
  intro fuel
  induction fuel with
  | zero => intro r c k h; simp
  | succ n ih =>
    intro r c k h
    cases k with
    | zero => simp
    | succ j =>
      have h0 := h 0 (by omega)
      simp only [Nat.cast_zero, zero_mul, add_zero] at h0
      rw [countDirectionAux, if_pos h0]
      have hj : ∀ i : Nat, i < j →
          inBounds (r + dx + i * dx) (c + dy + i * dy) ∧
          getCell b (r + dx + i * dx) (c + dy + i * dy) = p := by
        intro i hi
        have hstep := h (i + 1) (by omega)
        have e1 : r + ((i : Nat) + 1 : Nat) * dx = r + dx + (i : Int) * dx := by
          push_cast; ring
        have e2 : c + ((i : Nat) + 1 : Nat) * dy = c + dy + (i : Int) * dy := by
          push_cast; ring
        rw [e1, e2] at hstep
        exact hstep
      have := ih (r + dx) (c + dy) j hj
      omega

lemma countDirection_segOK (b : Board) (row col dx dy : Int) (p : Player) :
    segOK b row col dx dy p (countDirection b row col dx dy p) := by
  intro i hi
  have hstep := countAux_all b p dx dy 15 (row + dx) (col + dy) i hi
  have e1 : row + dx + (i : Int) * dx = row + ((i : Int) + 1) * dx := by ring
  have e2 : col + dy + (i : Int) * dy = col + ((i : Int) + 1) * dy := by ring
  rw [e1, e2] at hstep
  exact hstep

lemma segOK_le_countDirection (b : Board) (row col dx dy : Int) (p : Player)
    (k : Nat) (h : segOK b row col dx dy p k) :
    min k 15 ≤ countDirection b row col dx dy p := by
  apply countAux_ge
  intro i hi
  have hstep := h i hi
  have e1 : row + ((i : Int) + 1) * dx = row + dx + (i : Int) * dx := by ring
  have e2 : col + ((i : Int) + 1) * dy = col + dy + (i : Int) * dy := by ring
  rw [e1, e2] at hstep
  exact hstep

lemma axis_win_iff (b : Board) (row col dx dy : Int) (p : Player) :
    5 ≤ 1 + countDirection b row col dx dy p + countDirection b row col (-dx) (-dy) p
    ↔ hasRun b row col dx dy p := by
  constructor
  · intro h
    exact ⟨countDirection b row col (-dx) (-dy) p,
           countDirection b row col dx dy p, by omega,
           countDirection_segOK b row col (-dx) (-dy) p,
           countDirection_segOK b row col dx dy p⟩
  · rintro ⟨a, bb, hsum, hneg, hpos⟩
    have h1 := segOK_le_countDirection b row col dx dy p bb hpos
    have h2 := segOK_le_countDirection b row col (-dx) (-dy) p a hneg
    omega

/-- C2: for every board and every cell (row, col) holding a just-placed
non-empty side s, checkWin returns true iff some axis-aligned run of at
least five contiguous cells of side s passes through (row, col) along one
of the four axes (horizontal, vertical, diagonal, anti-diagonal), runs
being truncated at the board edge; a qualifying line on any single axis
suffices. -/
theorem checkWin_iff_hasRun (b : Board) (row col : Int) (s : Player)
    (hcell : getCell b row col = s) (hs : s ≠ Player.NONE) :
    checkWin b row col = true ↔
      (hasRun b row col 0 1 s ∨ hasRun b row col 1 0 s ∨
       hasRun b row col 1 1 s ∨ hasRun b row col 1 (-1) s) := by
  subst hcell
  rw [checkWin]
  simp only [directions, List.any_cons, List.any_nil, Bool.or_eq_true,
    Bool.or_false, decide_eq_true_eq]
  rw [axis_win_iff, axis_win_iff, axis_win_iff, axis_win_iff]

/-- Witness board for C2: five black stones in row 7, columns 5 to 9. -/
def c2Board : Board :=
  setCell (setCell (setCell (setCell (setCell initialBoard
    7 5 Player.BLACK) 7 6 Player.BLACK) 7 7 Player.BLACK) 7 8 Player.BLACK)
    7 9 Player.BLACK

theorem checkWin_iff_hasRun_witness :
    getCell c2Board 7 7 = Player.BLACK ∧ Player.BLACK ≠ Player.NONE ∧
    (checkWin c2Board 7 7 = true ↔
      (hasRun c2Board 7 7 0 1 Player.BLACK ∨ hasRun c2Board 7 7 1 0 Player.BLACK ∨
       hasRun c2Board 7 7 1 1 Player.BLACK ∨ hasRun c2Board 7 7 1 (-1) Player.BLACK)) :=
  ⟨by decide, by decide,
   checkWin_iff_hasRun c2Board 7 7 Player.BLACK (by decide) (by decide)⟩

/-! ## The directional count equals the specification run length -/

lemma countDirection_eq_runLen (b : Board) (row col dx dy : Int) (s : Player) :
    countDirection b row col dx dy s = runLen b row col dx dy s := by
  symm
  rw [runLen]
  apply Nat.findGreatest_eq_iff.mpr
  refine ⟨countAux_le b s dx dy 15 (row + dx) (col + dy), ?_, ?_⟩
  · intro _
    exact countDirection_segOK b row col dx dy s
  · intro n hlt hle hseg
    have := segOK_le_countDirection b row col dx dy s n hseg
    omega

lemma accMine (x : Int) (n : Nat) :
    (if 4 ≤ n then x + 100000 else if n = 3 then x + 10000
     else if n = 2 then x + 1000 else if n = 1 then x + 100 else x)
    = x + axisScoreMine n := by
  unfold axisScoreMine
  split_ifs <;> omega

lemma accOpp (x : Int) (n : Nat) :
    (if 4 ≤ n then x + 50000 else if n = 3 then x + 5000
     else if n = 2 then x + 500 else x)
    = x + axisScoreOpp n := by
  unfold axisScoreOpp
  split_ifs <;> omega

lemma evalPos_eq_spec (b : Board) (row col : Int) (s : Player) :
    evaluatePosition b row col s = evalSpec b row col s := by
  rw [evaluatePosition, evalSpec]
  simp only [directions, List.foldl_cons, List.foldl_nil, accMine, accOpp,
    countDirection_eq_runLen, specAxis, oppOf]
  ring

/-- C6: for every empty on-board candidate cell and real side to move, the
evaluation score equals exactly the sum over the four axes of the mover
weight of the two-sided adjacent own-run plus the defence weight of the
two-sided adjacent opponent-run, plus the centrality bonus
(14 - |row - 7| - |col - 7|) * 10. -/
theorem evaluatePosition_eq_evalSpec (b : Board) (row col : Int) (s : Player)
    (hb : inBounds row col) (he : getCell b row col = Player.NONE)
    (hs : s ≠ Player.NONE) :
    evaluatePosition b row col s = evalSpec b row col s :=
  evalPos_eq_spec b row col s

theorem evaluatePosition_eq_evalSpec_witness :
    inBounds 7 7 ∧ getCell initialBoard 7 7 = Player.NONE ∧
    Player.WHITE ≠ Player.NONE ∧
    evaluatePosition initialBoard 7 7 Player.WHITE =
      evalSpec initialBoard 7 7 Player.WHITE :=
  ⟨by decide, by decide, by decide,
   evaluatePosition_eq_evalSpec initialBoard 7 7 Player.WHITE
     (by decide) (by decide) (by decide)⟩

/-! ## Cell update lemmas -/

lemma getCell_setCell_self (b : Board) (r c : Int) (v : Player)
    (hb : inBounds r c) : getCell (setCell b r c v) r c = v := by
  obtain ⟨h1, h2, h3, h4⟩ := hb
  unfold getCell setCell
  rw [dif_pos ⟨h1, h2, h3, h4⟩]
  simp only []
  rw [if_pos]
  exact ⟨by simp [Int.toNat_of_nonneg h1], by simp [Int.toNat_of_nonneg h3]⟩

lemma getCell_setCell_ne (b : Board) (r c r' c' : Int) (v : Player)
    (h : r' ≠ r ∨ c' ≠ c) :
    getCell (setCell b r c v) r' c' = getCell b r' c' := by
  unfold getCell setCell
  split
  · rename_i hb'
    rw [if_neg]
    obtain ⟨h1, h2, h3, h4⟩ := hb'
    rintro ⟨e1, e2⟩
    rw [Int.toNat_of_nonneg h1] at e1
    rw [Int.toNat_of_nonneg h3] at e2
    rcases h with h | h <;> [exact h e1; exact h e2]
  · rfl

lemma setCell_setCell (b : Board) (r c : Int) (v1 v2 : Player) :
    setCell (setCell b r c v1) r c v2 = setCell b r c v2 := by
  funext i j
  unfold setCell
  by_cases h : ((i : Int) = r ∧ (j : Int) = c) <;> simp [h]

lemma setCell_self_eq (b : Board) (r c : Int) (hb : inBounds r c) :
    setCell b r c (getCell b r c) = b := by
  obtain ⟨h1, h2, h3, h4⟩ := hb
  funext i j
  unfold setCell getCell
  rw [dif_pos ⟨h1, h2, h3, h4⟩]
  by_cases h : ((i : Int) = r ∧ (j : Int) = c)
  · rw [if_pos h]
    obtain ⟨e1, e2⟩ := h
    have hi : i = (⟨r.toNat, by omega⟩ : Fin 15) :=
      Fin.ext (show (i : Nat) = r.toNat by omega)
    have hj : j = (⟨c.toNat, by omega⟩ : Fin 15) :=
      Fin.ext (show (j : Nat) = c.toNat by omega)
    rw [hi, hj]
  · rw [if_neg h]

lemma setCell_restore (b : Board) (r c : Int) (v : Player)
    (hb : inBounds r c) (he : getCell b r c = Player.NONE) :
    setCell (setCell b r c v) r c Player.NONE = b := by
  rw [setCell_setCell, ← he]
  exact setCell_self_eq b r c hb

lemma setCell_eq_of_getCell (b : Board) (r c : Int) (v : Player)
    (hb : inBounds r c) (hv : getCell b r c = v) : setCell b r c v = b := by
  rw [← hv]
  exact setCell_self_eq b r c hb

/-! ## C1: undo in a terminal state -/

/-- A terminal state with a nonempty ledger: black has just won nothing in
particular, the game-over flag is set, one move is on the ledger. -/
def c1State : GameState :=
  { board := setCell initialBoard 0 0 Player.BLACK
    currentPlayer := Player.BLACK
    gameOver := true
    moveHistory := [{ row := 0, col := 0, player := Player.BLACK,
                      timestamp := 5, moveNumber := 1 }]
    moveCount := 1
    gameMode := GameMode.PVP }

/-- C1 counterexample: in a terminal state with a nonempty ledger, undo
pops nothing and the terminal flag stays set, refuting the claim that undo
reverses a finished game back to InProgress. -/
theorem undo_terminal_counterexample :
    (undo c1State).gameOver = true ∧
    (undo c1State).moveHistory = c1State.moveHistory ∧
    c1State.moveHistory ≠ [] := by
  refine ⟨by decide, by decide, by decide⟩

/-- C1 amended: whenever the terminal flag is set, undo is a no-op - it
changes nothing and in particular never returns a finished game to play. -/
theorem undo_terminal_noop (st : GameState) (h : st.gameOver = true) :
    undo st = st := by
  rw [undo, if_pos (Or.inl h)]

theorem undo_terminal_noop_witness :
    c1State.gameOver = true ∧ undo c1State = c1State :=
  ⟨rfl, undo_terminal_noop c1State rfl⟩

/-! ## C8: rejected clicks change nothing -/

/-- C8: every rejected move submission - game already over, computer's
side to move in PVE mode, out-of-bounds coordinates, or occupied target
cell - leaves the whole state (board, ledger, side to move, terminal
flag) unchanged. -/
theorem handleClick_rejected (st : GameState) (row col ts : Int)
    (h : st.gameOver = true ∨
         (st.gameMode = GameMode.PVE ∧ st.currentPlayer = Player.WHITE) ∨
         ¬inBounds row col ∨ getCell st.board row col ≠ Player.NONE) :
    handleClick st row col ts = st := by
  rw [handleClick]
  split_ifs with h1 h2 h3 h4 <;> try rfl
  exfalso
  rcases h with h | h | h | h
  · exact h1 h
  · exact h2 h
  · exact h h3
  · exact h4 h

/-- State for the C8 witness: the initial state with the game flagged over. -/
def c8State : GameState := { initialState with gameOver := true }

theorem handleClick_rejected_witness :
    (c8State.gameOver = true ∨
     (c8State.gameMode = GameMode.PVE ∧ c8State.currentPlayer = Player.WHITE) ∨
     ¬inBounds 0 0 ∨ getCell c8State.board 0 0 ≠ Player.NONE) ∧
    handleClick c8State 0 0 0 = c8State :=
  ⟨Or.inl rfl, handleClick_rejected c8State 0 0 0 (Or.inl rfl)⟩

/-! ## C4: absent or malformed snapshots -/

/-- Parsed shape of a stored snapshot that is well-formed to the parser
but invalid as a snapshot: only the move history is present (and empty),
every other property undefined - the shape the source produces for a
stored object holding just an empty moveHistory array. -/
def c4Parsed : ParsedSnapshot :=
  { board := none, currentPlayer := none, gameOver := none
    moveHistory := some [], gameMode := none }

/-- C4 counterexample: loading the parseable but invalid snapshot c4Parsed
on a fresh engine leaves the engine's board field undefined - not the
fresh initial state, whose board is defined and empty - and leaves the
bad snapshot in storage instead of removing it. -/
theorem loadGame_malformed_counterexample :
    ((loadGame initialState (some (StoredValue.parsed c4Parsed))).1).board = none ∧
    (toJs initialState).board = some initialBoard ∧
    (loadGame initialState (some (StoredValue.parsed c4Parsed))).2 =
      some (StoredValue.parsed c4Parsed) :=
  ⟨rfl, rfl, rfl⟩

/-- C4 amended: loading with storage absent, or holding a value on which
loading throws before the first field assignment (unparseable text, or a
parse result whose first property read throws), propagates no error,
leaves the fresh engine in the initial state (empty board, black to move,
not terminal, empty ledger - every field still defined) and leaves
storage cleared of the bad value.  For values the parser accepts this
fails: the source assigns the parsed, possibly undefined properties to
the engine before any throw, and when the parsed history is usable it
throws nothing and never removes the snapshot. -/
theorem loadGame_bad_snapshot (stor : Option StoredValue)
    (h : stor = none ∨ stor = some StoredValue.unparseable) :
    loadGame initialState stor = (toJs initialState, none) := by
  rcases h with h | h <;> subst h <;> rfl

theorem loadGame_bad_snapshot_witness :
    ((some StoredValue.unparseable : Option StoredValue) = none ∨
     (some StoredValue.unparseable : Option StoredValue) =
       some StoredValue.unparseable) ∧
    loadGame initialState (some StoredValue.unparseable) =
      (toJs initialState, none) :=
  ⟨Or.inr rfl, loadGame_bad_snapshot (some StoredValue.unparseable) (Or.inr rfl)⟩

/-! ## C9: save / load round trip -/

/-- C9: saving any non-terminal state and loading on a fresh engine
reproduces the board, the move ledger, the side to move and the mode -
each loaded field is defined and equal to the saved one. -/
theorem save_load_roundtrip (st : GameState) (stor : Option StoredValue)
    (h : st.gameOver = false) :
    ((loadGame initialState (saveGame st stor)).1).board = some st.board ∧
    ((loadGame initialState (saveGame st stor)).1).moveHistory =
      some st.moveHistory ∧
    ((loadGame initialState (saveGame st stor)).1).currentPlayer =
      some st.currentPlayer ∧
    ((loadGame initialState (saveGame st stor)).1).gameMode = some st.gameMode := by
  rw [saveGame, if_neg (by simp [h])]
  exact ⟨rfl, rfl, rfl, rfl⟩

/-- A mid-game state for the C9 witness: one black stone at (7, 7), white
to move. -/
def c9State : GameState :=
  { board := setCell initialBoard 7 7 Player.BLACK
    currentPlayer := Player.WHITE
    gameOver := false
    moveHistory := [{ row := 7, col := 7, player := Player.BLACK,
                      timestamp := 3, moveNumber := 1 }]
    moveCount := 1
    gameMode := GameMode.PVE }

theorem save_load_roundtrip_witness :
    c9State.gameOver = false ∧
    (((loadGame initialState (saveGame c9State none)).1).board = some c9State.board ∧
     ((loadGame initialState (saveGame c9State none)).1).moveHistory =
       some c9State.moveHistory ∧
     ((loadGame initialState (saveGame c9State none)).1).currentPlayer =
       some c9State.currentPlayer ∧
     ((loadGame initialState (saveGame c9State none)).1).gameMode =
       some c9State.gameMode) :=
  ⟨rfl, save_load_roundtrip c9State none rfl⟩

/-! ## Projections of placePiece and the accepted-click reduction -/

lemma placePiece_board (st : GameState) (row col ts : Int) :
    (placePiece st row col ts).board = setCell st.board row col st.currentPlayer := by
  simp only [placePiece]
  split_ifs <;> rfl

lemma placePiece_history (st : GameState) (row col ts : Int) :
    (placePiece st row col ts).moveHistory =
      { row := row, col := col, player := st.currentPlayer, timestamp := ts,
        moveNumber := st.moveCount + 1 } :: st.moveHistory := by
  simp only [placePiece]
  split_ifs <;> rfl

lemma placePiece_moveCount (st : GameState) (row col ts : Int) :
    (placePiece st row col ts).moveCount = st.moveCount + 1 := by
  simp only [placePiece]
  split_ifs <;> rfl

lemma placePiece_gameMode (st : GameState) (row col ts : Int) :
    (placePiece st row col ts).gameMode = st.gameMode := by
  simp only [placePiece]
  split_ifs <;> rfl

lemma handleClick_accepted (st : GameState) (row col ts : Int)
    (hg : st.gameOver = false)
    (hmode : ¬(st.gameMode = GameMode.PVE ∧ st.currentPlayer = Player.WHITE))
    (hb : inBounds row col) (he : getCell st.board row col = Player.NONE) :
    handleClick st row col ts = placePiece st row col ts := by
  rw [handleClick, if_neg (by rw [hg]; simp), if_neg hmode,
    if_neg (by simpa using hb), if_neg (by simp [he])]

/-! ## C3: undo followed by resubmission -/

/-- The shape of undo on an in-progress PVP state with a nonempty ledger:
pop exactly the head move, clear its cell, decrement the counter, and
restore the side to move from the new ledger head (black when empty). -/
lemma undo_pvp_cons (st : GameState) (m : Move) (rest : List Move)
    (hmode : st.gameMode = GameMode.PVP) (hg : st.gameOver = false)
    (hh : st.moveHistory = m :: rest) :
    undo st = { st with
      board := setCell st.board m.row m.col Player.NONE
      moveHistory := rest
      moveCount := st.moveCount - 1
      currentPlayer :=
        match rest with
        | [] => Player.BLACK
        | m' :: _ =>
          if m'.player = Player.BLACK then Player.WHITE else Player.BLACK } := by
  have hguard : ¬(st.gameOver = true ∨ st.moveHistory = []) := by
    rw [hg, hh]; simp
  rw [undo, if_neg hguard]
  have hsteps :
      (if st.gameMode = GameMode.PVE ∧ 2 ≤ st.moveHistory.length then 2 else 1)
        = 1 := by
    rw [hmode]; simp
  rw [hsteps]
  simp only [popLoop, popOnce, hh]
  cases rest <;> rfl

/-- A one-move PVP state used to exhibit C3 failing. -/
def c3State : GameState :=
  { board := setCell initialBoard 0 0 Player.BLACK
    currentPlayer := Player.WHITE
    gameOver := false
    moveHistory := [{ row := 0, col := 0, player := Player.BLACK,
                      timestamp := 5, moveNumber := 1 }]
    moveCount := 1
    gameMode := GameMode.PVP }

/-- C3 counterexample: undoing the single recorded move of c3State and
resubmitting the same cell at a later clock value 99 yields a ledger entry
whose timestamp field differs from its pre-undo value, so the round trip
does not restore every field of every ledger entry. -/
theorem undo_resubmit_counterexample :
    (handleClick (undo c3State) 0 0 99).moveHistory ≠ c3State.moveHistory := by
  decide

/-- C3 amended: in two-human mode, starting from an in-progress state whose
ledger head m matches its board cell and move counter and whose side to
move after the undo is again m's side (all automatic for states reached by
play), undoing and resubmitting the same cell restores the prior board
exactly, and restores the prior ledger except that the resubmitted entry
carries the new submission timestamp in place of the old one. -/
theorem undo_resubmit_roundtrip (st : GameState) (m : Move) (rest : List Move)
    (ts : Int)
    (hmode : st.gameMode = GameMode.PVP) (hg : st.gameOver = false)
    (hh : st.moveHistory = m :: rest)
    (hb : inBounds m.row m.col)
    (hcell : getCell st.board m.row m.col = m.player)
    (hcur : (undo st).currentPlayer = m.player)
    (hmc : st.moveCount = m.moveNumber) :
    (handleClick (undo st) m.row m.col ts).board = st.board ∧
    (handleClick (undo st) m.row m.col ts).moveHistory =
      { m with timestamp := ts } :: rest := by
  have hu := undo_pvp_cons st m rest hmode hg hh
  have hug : (undo st).gameOver = false := by rw [hu]; exact hg
  have hum : ¬((undo st).gameMode = GameMode.PVE ∧
      (undo st).currentPlayer = Player.WHITE) := by
    rw [hu]
    simp [hmode]
  have hue : getCell (undo st).board m.row m.col = Player.NONE := by
    rw [hu]
    exact getCell_setCell_self st.board m.row m.col Player.NONE hb
  rw [handleClick_accepted (undo st) m.row m.col ts hug hum hb hue]
  constructor
  · rw [placePiece_board, hcur, hu]
    show setCell (setCell st.board m.row m.col Player.NONE) m.row m.col m.player
        = st.board
    rw [setCell_setCell]
    exact setCell_eq_of_getCell st.board m.row m.col m.player hb hcell
  · rw [placePiece_history, hcur, hu]
    show ({ row := m.row, col := m.col, player := m.player, timestamp := ts,
            moveNumber := st.moveCount - 1 + 1 } : Move) :: rest =
        { m with timestamp := ts } :: rest
    have hn : st.moveCount - 1 + 1 = m.moveNumber := by omega
    rw [hn]

theorem undo_resubmit_roundtrip_witness :
    (c3State.gameMode = GameMode.PVP ∧ c3State.gameOver = false ∧
     c3State.moveHistory = [{ row := 0, col := 0, player := Player.BLACK,
                              timestamp := 5, moveNumber := 1 }] ∧
     inBounds 0 0 ∧ getCell c3State.board 0 0 = Player.BLACK ∧
     (undo c3State).currentPlayer = Player.BLACK ∧ c3State.moveCount = 1) ∧
    ((handleClick (undo c3State) 0 0 99).board = c3State.board ∧
     (handleClick (undo c3State) 0 0 99).moveHistory =
       [{ row := 0, col := 0, player := Player.BLACK,
          timestamp := 99, moveNumber := 1 }]) :=
  ⟨⟨rfl, rfl, rfl, by decide, by decide, by decide, rfl⟩,
   undo_resubmit_roundtrip c3State
     { row := 0, col := 0, player := Player.BLACK, timestamp := 5, moveNumber := 1 }
     [] 99 rfl rfl rfl (by decide) (by decide) (by decide) rfl⟩

/-! ## The AI move selector: scan lemmas -/

lemma mem_allCells {q : Int × Int} (h : q ∈ allCells) : inBounds q.1 q.2 := by
  have hall : allCells.all (fun p => decide (inBounds p.1 p.2)) = true := by decide
  rw [List.all_eq_true] at hall
  simpa using hall q h

/-- The win-search tier leaves the board exactly as it found it and its
result is the first cell of the scan list that is an empty winning
placement for the given side. -/
lemma tryWinScan_eq (side : Player) :
    ∀ (cells : List (Int × Int)) (b : Board),
      (∀ q ∈ cells, inBounds q.1 q.2) →
      tryWinScan b side cells = (cells.find? (winningCell b side), b) := by
  intro cells
  induction cells with
  | nil => intro b h; simp [tryWinScan]
  | cons q rest ih =>
    intro b h
    have hq : inBounds q.1 q.2 := h q (List.mem_cons_self q rest)
    have hr : ∀ p ∈ rest, inBounds p.1 p.2 :=
      fun p hp => h p (List.mem_cons_of_mem q hp)
    by_cases he : getCell b q.1 q.2 = Player.NONE
    · have hres : setCell (setCell b q.1 q.2 side) q.1 q.2 Player.NONE = b :=
        setCell_restore b q.1 q.2 side hq he
      by_cases hw : checkWin (setCell b q.1 q.2 side) q.1 q.2 = true
      · rw [tryWinScan, if_pos he, if_pos hw, hres,
          List.find?_cons_of_pos _ (by simp [winningCell, he, hw])]
      · rw [tryWinScan, if_pos he, if_neg hw, hres, ih b hr,
          List.find?_cons_of_neg _ (by simp [winningCell, he, hw])]
    · rw [tryWinScan, if_neg he, ih b hr,
        List.find?_cons_of_neg _ (by simp [winningCell, he])]

/-! ## The AI move selector: score lemmas -/

lemma axisScoreMine_nonneg (n : Nat) : 0 ≤ axisScoreMine n := by
  unfold axisScoreMine; split_ifs <;> omega

lemma axisScoreOpp_nonneg (n : Nat) : 0 ≤ axisScoreOpp n := by
  unfold axisScoreOpp; split_ifs <;> omega

lemma specAxis_nonneg (b : Board) (row col dx dy : Int) (s : Player) :
    0 ≤ specAxis b row col dx dy s :=
  add_nonneg (axisScoreMine_nonneg _) (axisScoreOpp_nonneg _)

lemma eval_nonneg (b : Board) (row col : Int) (hb : inBounds row col) (s : Player) :
    0 ≤ evaluatePosition b row col s := by
  rw [evalPos_eq_spec]
  unfold evalSpec
  obtain ⟨h1, h2, h3, h4⟩ := hb
  have a1 := specAxis_nonneg b row col 0 1 s
  have a2 := specAxis_nonneg b row col 1 0 s
  have a3 := specAxis_nonneg b row col 1 1 s
  have a4 := specAxis_nonneg b row col 1 (-1) s
  have hr : |row - 7| ≤ 7 := abs_le.mpr ⟨by omega, by omega⟩
  have hc : |col - 7| ≤ 7 := abs_le.mpr ⟨by omega, by omega⟩
  have hcent : (0 : Int) ≤ (14 - |row - 7| - |col - 7|) * 10 :=
    mul_nonneg (by linarith) (by norm_num)
  linarith

lemma emptyCells_nil_iff (b : Board) :
    emptyCells b = [] ↔ isBoardFull b = true := by
  unfold emptyCells isBoardFull
  rw [List.filter_eq_nil_iff, List.all_eq_true]
  simp

lemma mem_emptyCells {b : Board} {q : Int × Int} (h : q ∈ emptyCells b) :
    inBounds q.1 q.2 ∧ getCell b q.1 q.2 = Player.NONE := by
  unfold emptyCells at h
  rw [List.mem_filter] at h
  exact ⟨mem_allCells h.1, by simpa using h.2⟩

/-! ## The AI move selector: fold characterization -/

lemma foldl_max_init_le (sc : Int × Int → Int) :
    ∀ (l : List (Int × Int)) (a : Int), a ≤ (l.map sc).foldl max a := by
  intro l
  induction l with
  | nil => intro a; simp
  | cons q t ih =>
    intro a
    simp only [List.map_cons, List.foldl_cons]
    exact le_trans (le_max_left a (sc q)) (ih (max a (sc q)))

lemma mem_le_foldl_max (sc : Int × Int → Int) :
    ∀ (l : List (Int × Int)) (a : Int) (q : Int × Int),
      q ∈ l → sc q ≤ (l.map sc).foldl max a := by
  intro l
  induction l with
  | nil => intro a q hq; simp at hq
  | cons p t ih =>
    intro a q hq
    simp only [List.map_cons, List.foldl_cons]
    rcases List.mem_cons.mp hq with rfl | hq
    · exact le_trans (le_max_right a (sc q)) (foldl_max_init_le sc t _)
    · exact ih _ q hq

lemma foldl_max_attained (sc : Int × Int → Int) :
    ∀ (l : List (Int × Int)) (a : Int),
      (l.map sc).foldl max a = a ∨ ∃ q ∈ l, sc q = (l.map sc).foldl max a := by
  intro l
  induction l with
  | nil => intro a; left; rfl
  | cons p t ih =>
    intro a
    simp only [List.map_cons, List.foldl_cons]
    rcases ih (max a (sc p)) with h | ⟨q, hq, hsc⟩
    · rw [h]
      rcases le_or_lt (sc p) a with hle | hlt
      · left; exact max_eq_left hle
      · right; exact ⟨p, List.mem_cons_self p t, (max_eq_right hlt.le).symm⟩
    · right; exact ⟨q, List.mem_cons_of_mem p hq, hsc⟩

/-- The strategy-3 fold computes the running maximum score together with
the first cell attaining it (when some cell beats the initial value). -/
lemma bestFold_eq (sc : Int × Int → Int) :
    ∀ (l : List (Int × Int)) (a : Int) (mo : Option (Int × Int)),
      l.foldl (fun acc q => if acc.1 < sc q then (sc q, some q) else acc) (a, mo) =
      ((l.map sc).foldl max a,
       if a < (l.map sc).foldl max a then
         l.find? (fun q => decide (sc q = (l.map sc).foldl max a))
       else mo) := by
  intro l
  induction l with
  | nil => intro a mo; simp
  | cons p t ih =>
    intro a mo
    simp only [List.foldl_cons, List.map_cons]
    by_cases hp : a < sc p
    · rw [if_pos hp, ih (sc p) (some p)]
      simp only [max_eq_right hp.le]
      have hscpM : sc p ≤ (t.map sc).foldl max (sc p) := foldl_max_init_le sc t (sc p)
      rw [if_pos (lt_of_lt_of_le hp hscpM)]
      by_cases heq : sc p = (t.map sc).foldl max (sc p)
      · rw [if_neg (by omega),
          List.find?_cons_of_pos _ (by simp only [decide_eq_true_eq]; exact heq)]
      · rw [if_pos (lt_of_le_of_ne hscpM heq),
          List.find?_cons_of_neg _ (by simp only [decide_eq_true_eq]; exact heq)]
    · rw [if_neg hp, ih a mo]
      simp only [max_eq_left (not_lt.mp hp)]
      by_cases haM : a < (t.map sc).foldl max a
      · have hne : sc p ≠ (t.map sc).foldl max a := by
          have := not_lt.mp hp; omega
        rw [if_pos haM, if_pos haM, List.find?_cons_of_neg _ (by simp [hne])]
      · rw [if_neg haM, if_neg haM]

/-- Folding the guarded step over all cells is folding the unguarded step
over the empty cells. -/
lemma foldl_bestStep_filter (b : Board) :
    ∀ (l : List (Int × Int)) (acc : Int × Option (Int × Int)),
      l.foldl (bestStep b) acc =
      (l.filter fun q => decide (getCell b q.1 q.2 = Player.NONE)).foldl
        (fun acc q =>
          if acc.1 < evaluatePosition b q.1 q.2 Player.WHITE then
            (evaluatePosition b q.1 q.2 Player.WHITE, some q)
          else acc) acc := by
  intro l
  induction l with
  | nil => intro acc; rfl
  | cons p t ih =>
    intro acc
    by_cases he : getCell b p.1 p.2 = Player.NONE
    · rw [List.foldl_cons, List.filter_cons_of_pos (by simp [he]), List.foldl_cons,
        bestStep, if_pos he]
      exact ih _
    · rw [List.foldl_cons, List.filter_cons_of_neg (by simp [he]),
        bestStep, if_neg he]
      exact ih _

/-- The generic fold characterization instantiated with the white-side
evaluation score. -/
lemma bestFold_eval_eq (b : Board) (l : List (Int × Int)) (a : Int)
    (mo : Option (Int × Int)) :
    l.foldl (fun acc q =>
        if acc.1 < evaluatePosition b q.1 q.2 Player.WHITE then
          (evaluatePosition b q.1 q.2 Player.WHITE, some q)
        else acc) (a, mo) =
    ((l.map fun q => evaluatePosition b q.1 q.2 Player.WHITE).foldl max a,
     if a < (l.map fun q => evaluatePosition b q.1 q.2 Player.WHITE).foldl max a then
       l.find? (fun q => decide (evaluatePosition b q.1 q.2 Player.WHITE =
         (l.map fun q => evaluatePosition b q.1 q.2 Player.WHITE).foldl max a))
     else mo) :=
  bestFold_eq (fun q => evaluatePosition b q.1 q.2 Player.WHITE) l a mo

/-- getAIMove computes the specification selector and returns the board it
was given. -/
lemma getAIMove_eq (b : Board) : getAIMove b = (selectMoveSpec b, b) := by
  have hbnd : ∀ q ∈ allCells, inBounds q.1 q.2 := fun q h => mem_allCells h
  unfold getAIMove selectMoveSpec
  rw [tryWinScan_eq Player.WHITE allCells b hbnd]
  cases hf1 : allCells.find? (winningCell b Player.WHITE) with
  | some q => rfl
  | none =>
    simp only []
    rw [tryWinScan_eq Player.BLACK allCells b hbnd]
    cases hf2 : allCells.find? (winningCell b Player.BLACK) with
    | some q => rfl
    | none =>
      simp only [Prod.mk.injEq]
      refine ⟨?_, trivial⟩
      unfold emptyCells bestSpecScore
      rw [foldl_bestStep_filter b allCells (-1, none), bestFold_eval_eq]
      unfold emptyCells
      cases hnil : allCells.filter (fun q => decide (getCell b q.1 q.2 = Player.NONE)) with
      | nil => simp
      | cons q0 t0 =>
        have hq0 : q0 ∈ allCells.filter
            (fun q => decide (getCell b q.1 q.2 = Player.NONE)) := by
          rw [hnil]; exact List.mem_cons_self q0 t0
        have hb0 : inBounds q0.1 q0.2 := mem_allCells (List.mem_filter.mp hq0).1
        have hnn : 0 ≤ evaluatePosition b q0.1 q0.2 Player.WHITE :=
          eval_nonneg b q0.1 q0.2 hb0 Player.WHITE
        have hmax : evaluatePosition b q0.1 q0.2 Player.WHITE ≤
            ((q0 :: t0).map fun q => evaluatePosition b q.1 q.2 Player.WHITE).foldl
              max (-1) :=
          mem_le_foldl_max _ (q0 :: t0) (-1) q0 (List.mem_cons_self q0 t0)
        rw [if_pos (by omega)]

/-- The specification selector returns none exactly on a full board. -/
lemma selectMoveSpec_none_iff (b : Board) :
    selectMoveSpec b = none ↔ isBoardFull b = true := by
  constructor
  · intro h
    unfold selectMoveSpec at h
    cases hf1 : allCells.find? (winningCell b Player.WHITE) with
    | some q => rw [hf1] at h; simp at h
    | none =>
      rw [hf1] at h
      cases hf2 : allCells.find? (winningCell b Player.BLACK) with
      | some q => rw [hf2] at h; simp at h
      | none =>
        rw [hf2] at h
        simp only [] at h
        by_contra hfull
        have hne : emptyCells b ≠ [] := by
          intro hnil; exact hfull ((emptyCells_nil_iff b).mp hnil)
        obtain ⟨q0, t0, he⟩ := List.exists_cons_of_ne_nil hne
        rcases foldl_max_attained (fun q => evaluatePosition b q.1 q.2 Player.WHITE)
            (emptyCells b) (-1) with hM | ⟨q1, hq1, hsc⟩
        · have hmem := mem_le_foldl_max
            (fun q => evaluatePosition b q.1 q.2 Player.WHITE)
            (emptyCells b) (-1) q0 (by rw [he]; exact List.mem_cons_self q0 t0)
          have h0 : 0 ≤ evaluatePosition b q0.1 q0.2 Player.WHITE :=
            eval_nonneg b q0.1 q0.2
              (mem_emptyCells (by rw [he]; exact List.mem_cons_self q0 t0)).1
              Player.WHITE
          simp only [] at hmem hM
          omega
        · rw [List.find?_eq_none] at h
          have := h q1 hq1
          simp only [decide_eq_true_eq] at this
          exact this (by unfold bestSpecScore; simpa using hsc)
  · intro hfull
    unfold selectMoveSpec
    have hocc : ∀ q ∈ allCells, ¬getCell b q.1 q.2 = Player.NONE := by
      unfold isBoardFull at hfull
      rw [List.all_eq_true] at hfull
      intro q hq
      simpa using hfull q hq
    have h1 : allCells.find? (winningCell b Player.WHITE) = none := by
      rw [List.find?_eq_none]
      intro q hq
      simp [winningCell, hocc q hq]
    have h2 : allCells.find? (winningCell b Player.BLACK) = none := by
      rw [List.find?_eq_none]
      intro q hq
      simp [winningCell, hocc q hq]
    rw [h1, h2, (emptyCells_nil_iff b).mpr hfull]
    rfl

/-- A cell returned by the specification selector is empty and on the
board. -/
lemma selectMoveSpec_some (b : Board) (r c : Int)
    (h : selectMoveSpec b = some (r, c)) :
    inBounds r c ∧ getCell b r c = Player.NONE := by
  unfold selectMoveSpec at h
  cases hf1 : allCells.find? (winningCell b Player.WHITE) with
  | some q =>
    rw [hf1] at h
    simp only [Option.some.injEq] at h
    subst h
    have hwin := List.find?_some hf1
    simp only [winningCell, Bool.and_eq_true, decide_eq_true_eq] at hwin
    exact ⟨mem_allCells (List.mem_of_find?_eq_some hf1), hwin.1⟩
  | none =>
    rw [hf1] at h
    cases hf2 : allCells.find? (winningCell b Player.BLACK) with
    | some q =>
      rw [hf2] at h
      simp only [Option.some.injEq] at h
      subst h
      have hwin := List.find?_some hf2
      simp only [winningCell, Bool.and_eq_true, decide_eq_true_eq] at hwin
      exact ⟨mem_allCells (List.mem_of_find?_eq_some hf2), hwin.1⟩
    | none =>
      rw [hf2] at h
      simp only [] at h
      exact mem_emptyCells (List.mem_of_find?_eq_some h)

/-- C5: for every board, the AI selector returns the move prescribed by the
three-tier policy (first row-major immediate win for the AI, else first
row-major block of the opponent's immediate win, else first row-major empty
cell of strictly greatest score); it returns none exactly when the board is
full, and any returned cell is empty and on the board. -/
theorem getAIMove_three_tiers (b : Board) :
    (getAIMove b).1 = selectMoveSpec b ∧
    ((getAIMove b).1 = none ↔ isBoardFull b = true) ∧
    ∀ r c : Int, (getAIMove b).1 = some (r, c) →
      inBounds r c ∧ getCell b r c = Player.NONE := by
  rw [getAIMove_eq b]
  exact ⟨rfl, selectMoveSpec_none_iff b, fun r c hs => selectMoveSpec_some b r c hs⟩

/-- C10: the AI move selection leaves the board unchanged - every
hypothetical placement of the two win scans is reverted and the scoring
pass only reads, so the board coming out of getAIMove is the board that
went in. -/
theorem getAIMove_board_unchanged (b : Board) : (getAIMove b).2 = b := by
  rw [getAIMove_eq b]

/-! ## Counting non-empty cells -/

lemma nonEmptyCount_set (b : Board) (r c : Int) (v : Player)
    (hb : inBounds r c) (he : getCell b r c = Player.NONE) (hv : v ≠ Player.NONE) :
    nonEmptyCount (setCell b r c v) = nonEmptyCount b + 1 := by
  obtain ⟨h1, h2, h3, h4⟩ := hb
  have hb0 : b ⟨r.toNat, by omega⟩ ⟨c.toNat, by omega⟩ = Player.NONE := by
    unfold getCell at he
    rw [dif_pos ⟨h1, h2, h3, h4⟩] at he
    exact he
  unfold nonEmptyCount
  have hset : (Finset.univ.filter
        fun q : Fin 15 × Fin 15 => setCell b r c v q.1 q.2 ≠ Player.NONE)
      = insert (⟨⟨r.toNat, by omega⟩, ⟨c.toNat, by omega⟩⟩ : Fin 15 × Fin 15)
          (Finset.univ.filter fun q : Fin 15 × Fin 15 => b q.1 q.2 ≠ Player.NONE) := by
    ext q
    obtain ⟨qa, qb⟩ := q
    simp only [Finset.mem_filter, Finset.mem_insert, Finset.mem_univ, true_and,
      Prod.mk.injEq]
    unfold setCell
    by_cases hcond : ((qa : Int) = r ∧ (qb : Int) = c)
    · rw [if_pos hcond]
      obtain ⟨e1, e2⟩ := hcond
      have ha : qa = (⟨r.toNat, by omega⟩ : Fin 15) :=
        Fin.ext (show (qa : Nat) = r.toNat by omega)
      have hbq : qb = (⟨c.toNat, by omega⟩ : Fin 15) :=
        Fin.ext (show (qb : Nat) = c.toNat by omega)
      simp [ha, hbq, hv]
    · rw [if_neg hcond]
      have hne : ¬(qa = (⟨r.toNat, by omega⟩ : Fin 15) ∧
          qb = (⟨c.toNat, by omega⟩ : Fin 15)) := by
        rintro ⟨rfl, rfl⟩
        exact hcond ⟨by simp [Int.toNat_of_nonneg h1],
          by simp [Int.toNat_of_nonneg h3]⟩
      constructor
      · exact fun h => Or.inr h
      · rintro (⟨ha, hbq⟩ | h)
        · exact absurd ⟨ha, hbq⟩ hne
        · exact h
  have hnm : (⟨⟨r.toNat, by omega⟩, ⟨c.toNat, by omega⟩⟩ : Fin 15 × Fin 15) ∉
      Finset.univ.filter (fun q : Fin 15 × Fin 15 => b q.1 q.2 ≠ Player.NONE) := by
    simp [hb0]
  rw [hset, Finset.card_insert_of_not_mem hnm]

lemma nonEmptyCount_clear (b : Board) (r c : Int)
    (hb : inBounds r c) (hne : getCell b r c ≠ Player.NONE) :
    nonEmptyCount (setCell b r c Player.NONE) + 1 = nonEmptyCount b := by
  have hb' : getCell (setCell b r c Player.NONE) r c = Player.NONE :=
    getCell_setCell_self b r c Player.NONE hb
  have h2 := nonEmptyCount_set (setCell b r c Player.NONE) r c (getCell b r c)
    hb hb' hne
  rw [setCell_setCell, setCell_self_eq b r c hb] at h2
  omega

/-! ## Preservation of the ledger invariant -/

lemma ledgerInv_init : LedgerInv initialState := by
  unfold LedgerInv initialState nonEmptyCount initialBoard
  refine ⟨by simp, by simp, by simp, by simp⟩

lemma ledgerInv_place (st : GameState) (row col ts : Int)
    (hv : validPlace st row col) (hinv : LedgerInv st) :
    LedgerInv (placePiece st row col ts) := by
  obtain ⟨hg, hb, he⟩ := hv
  obtain ⟨hlen, hmem, hpair, hcur⟩ := hinv
  have hboard := placePiece_board st row col ts
  have hhist := placePiece_history st row col ts
  have hcp : (placePiece st row col ts).currentPlayer ≠ Player.NONE := by
    simp only [placePiece]
    split_ifs with hw hf hbk
    · exact hcur
    · exact hcur
    · simp
    · simp
  unfold LedgerInv
  rw [hhist, hboard]
  refine ⟨?_, ?_, ?_, hcp⟩
  · simp only [List.length_cons]
    rw [nonEmptyCount_set st.board row col st.currentPlayer hb he hcur]
    omega
  · intro m' hm'
    rcases List.mem_cons.mp hm' with rfl | hm'
    · exact ⟨hb, getCell_setCell_self st.board row col st.currentPlayer hb, hcur⟩
    · obtain ⟨hbm, hcm, hpm⟩ := hmem m' hm'
      have hnecoord : m'.row ≠ row ∨ m'.col ≠ col := by
        by_contra hcon
        push_neg at hcon
        rw [hcon.1, hcon.2, he] at hcm
        exact hpm hcm.symm
      refine ⟨hbm, ?_, hpm⟩
      rw [getCell_setCell_ne st.board row col m'.row m'.col st.currentPlayer
        hnecoord]
      exact hcm
  · rw [List.pairwise_cons]
    refine ⟨?_, hpair⟩
    intro m' hm'
    obtain ⟨hbm, hcm, hpm⟩ := hmem m' hm'
    intro heq
    rw [Prod.mk.injEq] at heq
    rw [← heq.1, ← heq.2, he] at hcm
    exact hpm hcm.symm

lemma ledgerInv_popOnce (st : GameState) (hinv : LedgerInv st) :
    LedgerInv (popOnce st) := by
  unfold popOnce
  cases hh : st.moveHistory with
  | nil => exact hinv
  | cons m rest =>
    obtain ⟨hlen, hmem, hpair, hcur⟩ := hinv
    obtain ⟨hbm, hcm, hpm⟩ := hmem m (by rw [hh]; exact List.mem_cons_self m rest)
    have hrest : ∀ m' ∈ rest, inBounds m'.row m'.col ∧
        getCell st.board m'.row m'.col = m'.player ∧ m'.player ≠ Player.NONE :=
      fun m' hm' => hmem m' (by rw [hh]; exact List.mem_cons_of_mem m hm')
    rw [hh, List.pairwise_cons] at hpair
    refine ⟨?_, ?_, ?_, hcur⟩
    · show rest.length = nonEmptyCount (setCell st.board m.row m.col Player.NONE)
      have hclear := nonEmptyCount_clear st.board m.row m.col hbm
        (by rw [hcm]; exact hpm)
      rw [hh] at hlen
      simp only [List.length_cons] at hlen
      omega
    · show ∀ m' ∈ rest, inBounds m'.row m'.col ∧
        getCell (setCell st.board m.row m.col Player.NONE) m'.row m'.col =
          m'.player ∧ m'.player ≠ Player.NONE
      intro m' hm'
      obtain ⟨hb', hc', hp'⟩ := hrest m' hm'
      have hne : m'.row ≠ m.row ∨ m'.col ≠ m.col := by
        have hd := hpair.1 m' hm'
        by_contra hcon
        push_neg at hcon
        exact hd (by rw [hcon.1, hcon.2])
      refine ⟨hb', ?_, hp'⟩
      rw [getCell_setCell_ne st.board m.row m.col m'.row m'.col Player.NONE hne]
      exact hc'
    · exact hpair.2

lemma ledgerInv_popLoop (n : Nat) :
    ∀ st : GameState, LedgerInv st → LedgerInv (popLoop n st) := by
  induction n with
  | zero => intro st h; exact h
  | succ k ih => intro st h; exact ih _ (ledgerInv_popOnce st h)

lemma ledgerInv_override (st1 : GameState) (h : LedgerInv st1) :
    LedgerInv { st1 with currentPlayer :=
      match st1.moveHistory with
      | [] => Player.BLACK
      | m :: _ =>
        if m.player = Player.BLACK then Player.WHITE else Player.BLACK } := by
  obtain ⟨hlen, hmem, hpair, hcur⟩ := h
  refine ⟨hlen, hmem, hpair, ?_⟩
  show (match st1.moveHistory with
    | [] => Player.BLACK
    | m :: _ =>
      if m.player = Player.BLACK then Player.WHITE else Player.BLACK)
    ≠ Player.NONE
  cases st1.moveHistory with
  | nil => simp
  | cons m rest =>
    show (if m.player = Player.BLACK then Player.WHITE else Player.BLACK)
      ≠ Player.NONE
    split_ifs <;> simp

lemma ledgerInv_undo (st : GameState) (hinv : LedgerInv st) :
    LedgerInv (undo st) := by
  unfold undo
  split_ifs with h1 h2
  · exact hinv
  · exact ledgerInv_override _ (ledgerInv_popLoop _ st hinv)
  · exact ledgerInv_override _ (ledgerInv_popLoop _ st hinv)

lemma reachable_ledgerInv {st : GameState} (h : Reachable st) : LedgerInv st := by
  induction h with
  | init => exact ledgerInv_init
  | move row col ts hre hv ih => exact ledgerInv_place _ row col ts hv ih
  | undoStep hre ih => exact ledgerInv_undo _ ih

/-- C7: in every state reachable from the initial state by successful move
placements and undos, the length of the move ledger equals the number of
non-empty cells on the board. -/
theorem ledger_length_eq_board_count (st : GameState) (h : Reachable st) :
    st.moveHistory.length = nonEmptyCount st.board :=
  (reachable_ledgerInv h).1

theorem ledger_length_eq_board_count_witness :
    Reachable initialState ∧
    initialState.moveHistory.length = nonEmptyCount initialState.board :=
  ⟨Reachable.init, ledger_length_eq_board_count initialState Reachable.init⟩

end Gomoku
